import Mathlib

/-!
# Verification of the MLCodeLab lab2 training notebooks

A shallow embedding of the two teaching notebooks
`src/lab2/mnist_tutorial.ipynb` and `src/lab2/cifar_exercise.ipynb`
(the exercise notebook repeats the tutorial's `train_epoch` / `eval_epoch`
verbatim, so one embedding covers both).

The notebooks call into PyTorch; the library operations they use are
embedded by their documented semantics:

* `torch.utils.data.DataLoader(ds, batch_size, shuffle=True)` draws a fresh
  permutation of the dataset each epoch and yields it in consecutive chunks
  of `batch_size`; with the default `drop_last=False` the final chunk holds
  the remainder.  This is `batchesOf` applied to an arbitrary permutation.
* `F.cross_entropy(output, target)` with the default `reduction='mean'`
  returns the arithmetic mean of the per-sample losses of the batch.
  The per-sample loss itself (a real-valued log-softmax computation) is an
  abstract parameter `TorchLib.lossOfSample`; numeric values are `ℚ`.
* `output.max(1, keepdim=True)[1]` is, per sample, the index of the first
  maximal logit (`argmaxIdx`).
* `optimizer.zero_grad(); loss.backward(); optimizer.step()` update the
  model parameters in place once per batch; the composite update is the
  abstract parameter `TorchLib.stepBatch`.
* `int(len(all_train)*.8)` truncates `0.8 * n`; for every dataset size
  representable without floating-point rounding across an integer this is
  `⌊8n/10⌋`, which is how it is embedded (`num_train`).
-/

namespace MLCodeLab

/-! ## DataLoader batching

`chunksGo` is fuel-indexed structural recursion; `batchesOf bs l` cuts `l`
into consecutive chunks of size `bs` (the last chunk possibly shorter),
which is what iterating a `DataLoader` over the (already shuffled) list
yields with the default `drop_last=False`. -/

def chunksGo (bs : ℕ) : ℕ → List α → List (List α)
  | 0, _ => []
  | _, [] => []
  | fuel + 1, a :: l => ((a :: l).take bs) :: chunksGo bs fuel ((a :: l).drop bs)

def batchesOf (bs : ℕ) (l : List α) : List (List α) :=
  chunksGo bs l.length l

theorem chunksGo_nil (bs fuel : ℕ) : chunksGo bs fuel ([] : List α) = [] := by
  cases fuel <;> rfl

theorem chunksGo_flatten (bs : ℕ) (hbs : 0 < bs) :
    ∀ (fuel : ℕ) (l : List α), l.length ≤ fuel → (chunksGo bs fuel l).flatten = l := by
  intro fuel
  induction fuel with
  | zero =>
    intro l hl
    have : l = [] := List.eq_nil_of_length_eq_zero (Nat.le_zero.mp hl)
    subst this; rfl
  | succ n ih =>
    intro l hl
    cases l with
    | nil => rfl
    | cons a t =>
      have hdrop : ((a :: t).drop bs).length ≤ n := by
        rw [List.length_drop]
        have : (a :: t).length ≤ n + 1 := hl
        omega
      simp only [chunksGo, List.flatten_cons]
      rw [ih _ hdrop, List.take_append_drop]

theorem batchesOf_flatten (bs : ℕ) (hbs : 0 < bs) (l : List α) :
    (batchesOf bs l).flatten = l :=
  chunksGo_flatten bs hbs l.length l le_rfl

theorem chunksGo_length_le (bs : ℕ) :
    ∀ (fuel : ℕ) (l : List α), (chunksGo bs fuel l).length ≤ fuel := by
  intro fuel
  induction fuel with
  | zero => intro l; simp [chunksGo]
  | succ n ih =>
    intro l
    cases l with
    | nil => simp [chunksGo]
    | cons a t =>
      simp only [chunksGo, List.length_cons]
      exact Nat.succ_le_succ (ih _)

theorem batchesOf_length_le (bs : ℕ) (l : List α) :
    (batchesOf bs l).length ≤ l.length :=
  chunksGo_length_le bs l.length l

/-- Every batch the loader yields is nonempty and no longer than `bs`. -/
theorem chunksGo_mem_length (bs : ℕ) (hbs : 0 < bs) :
    ∀ (fuel : ℕ) (l : List α), ∀ b ∈ chunksGo bs fuel l,
      0 < b.length ∧ b.length ≤ bs := by
  intro fuel
  induction fuel with
  | zero => intro l b hb; simp [chunksGo] at hb
  | succ n ih =>
    intro l b hb
    cases l with
    | nil => simp [chunksGo] at hb
    | cons a t =>
      simp only [chunksGo, List.mem_cons] at hb
      rcases hb with h | h
      · subst h
        constructor
        · rw [List.length_take]
          exact lt_min hbs (by simp)
        · rw [List.length_take]
          exact min_le_left _ _
      · exact ih _ b h

/-- Every batch except possibly the last has length exactly `bs`. -/
theorem chunksGo_dropLast_length (bs : ℕ) (hbs : 0 < bs) :
    ∀ (fuel : ℕ) (l : List α), ∀ b ∈ (chunksGo bs fuel l).dropLast,
      b.length = bs := by
  intro fuel
  induction fuel with
  | zero => intro l b hb; simp [chunksGo] at hb
  | succ n ih =>
    intro l b hb
    cases l with
    | nil => simp [chunksGo] at hb
    | cons a t =>
      simp only [chunksGo] at hb
      rcases hrest : chunksGo bs n ((a :: t).drop bs) with _ | ⟨r, rs⟩
      · rw [hrest] at hb; simp at hb
      · rw [hrest] at hb
        rw [List.dropLast_cons_of_ne_nil (by simp)] at hb
        rcases List.mem_cons.mp hb with h | h
        · subst h
          -- the remainder is nonempty, so this chunk was cut at exactly `bs`
          have hne : (a :: t).drop bs ≠ [] := by
            intro hnil
            rw [hnil, chunksGo_nil] at hrest
            exact (List.cons_ne_nil r rs) hrest.symm
          have hlen : bs < (a :: t).length := by
            by_contra hle
            push_neg at hle
            exact hne (List.drop_eq_nil_of_le hle)
          rw [List.length_take]
          exact min_eq_left hlen.le
        · exact ih _ b (hrest ▸ h)

theorem batchesOf_dropLast_length (bs : ℕ) (hbs : 0 < bs) (l : List α) :
    ∀ b ∈ (batchesOf bs l).dropLast, b.length = bs :=
  chunksGo_dropLast_length bs hbs l.length l

/-- When `bs` divides the dataset size every batch has length exactly `bs`
(the tutorial's train split has 48000 = 64 · 750 samples). -/
theorem chunksGo_dvd_length (bs : ℕ) (hbs : 0 < bs) :
    ∀ (fuel : ℕ) (l : List α), l.length ≤ fuel → bs ∣ l.length →
      ∀ b ∈ chunksGo bs fuel l, b.length = bs := by
  intro fuel
  induction fuel with
  | zero => intro l _ _ b hb; simp [chunksGo] at hb
  | succ n ih =>
    intro l hfuel hdvd b hb
    cases l with
    | nil => simp [chunksGo] at hb
    | cons a t =>
      have hge : bs ≤ (a :: t).length := by
        rcases hdvd with ⟨k, hk⟩
        rcases Nat.eq_zero_or_pos k with h0 | hk0
        · rw [h0, Nat.mul_zero] at hk; simp at hk
        · calc bs = bs * 1 := (Nat.mul_one bs).symm
            _ ≤ bs * k := Nat.mul_le_mul_left bs hk0
            _ = (a :: t).length := hk.symm
      simp only [chunksGo, List.mem_cons] at hb
      rcases hb with h | h
      · subst h
        rw [List.length_take]
        exact min_eq_left hge
      · have hlen : ((a :: t).drop bs).length ≤ n := by
          rw [List.length_drop]
          have : (a :: t).length ≤ n + 1 := hfuel
          omega
        have hdvd' : bs ∣ ((a :: t).drop bs).length := by
          rw [List.length_drop]
          exact (Nat.dvd_sub' hdvd dvd_rfl)
        exact ih _ hlen hdvd' b h

theorem batchesOf_dvd_length (bs : ℕ) (hbs : 0 < bs) (l : List α)
    (hdvd : bs ∣ l.length) : ∀ b ∈ batchesOf bs l, b.length = bs :=
  chunksGo_dvd_length bs hbs l.length l le_rfl hdvd

/-! ## The train/dev/test split (Step 1 cell)

```python
num_train = int(len(all_train)*.8)
train = [all_train[i] for i in range(num_train)]
dev = [all_train[i] for i in range(num_train,len(all_train))]
test = datasets.MNIST('data', train=False, ...)
```
-/

/-- `int(len(all_train)*.8)`: truncation of `0.8 · n`, i.e. `⌊8n/10⌋`. -/
def num_train (n : ℕ) : ℕ := 8 * n / 10

/-- `[all_train[i] for i in range(num_train)]`: the first `num_train`
elements in order. -/
def trainSplit (all : List S) : List S := all.take (num_train all.length)

/-- `[all_train[i] for i in range(num_train, len(all_train))]`: the
remaining elements in order. -/
def devSplit (all : List S) : List S := all.drop (num_train all.length)

theorem num_train_le (n : ℕ) : num_train n ≤ n := by
  unfold num_train; omega

/-! ## The training and evaluation loops

The library operations invoked by `train_epoch` / `eval_epoch` that this
repository treats as black boxes, abstracted over the parameter carrier `P`
and the sample type `S`:

* `logits p s` — the row of `model(data)` for sample `s` at parameters `p`
  (`model(data)` is computed per batch, but each output row depends only
  on its own sample);
* `lossOfSample p s` — the per-sample cross-entropy loss, so that
  `F.cross_entropy(output, target)` (default `reduction='mean'`) is the
  batch average `crossEntropyMean`;
* `stepBatch p b` — the parameter update performed by
  `loss.backward(); optimizer.step()` for batch `b` at parameters `p`;
* `labelOf s` — the target of sample `s`. -/

structure TorchLib (P S : Type) where
  logits : P → S → List ℚ
  lossOfSample : P → S → ℚ
  stepBatch : P → List S → P
  labelOf : S → ℕ

/-- An `nn.Module`: its parameter tensors plus the train/eval mode flag
toggled by `model.train()` / `model.eval()`. -/
structure MModel (P : Type) where
  params : P
  training : Bool

/-- `F.cross_entropy(output, target)` with the default mean reduction:
the arithmetic mean of the per-sample losses of the batch. -/
def crossEntropyMean (env : TorchLib P S) (p : P) (b : List S) : ℚ :=
  (b.map (env.lossOfSample p)).sum / (b.length : ℚ)

/-- Running best index/value scan used by `argmaxIdx`. -/
def argmaxGo : ℕ → ℚ → ℕ → List ℚ → ℕ
  | bi, _, _, [] => bi
  | bi, bv, i, x :: xs =>
    if bv < x then argmaxGo i x (i + 1) xs else argmaxGo bi bv (i + 1) xs

/-- `output.max(1, keepdim=True)[1]` per sample: the index of the first
maximal entry of the logit row. -/
def argmaxIdx : List ℚ → ℕ
  | [] => 0
  | x :: xs => argmaxGo 0 x 1 xs

/-- `pred.eq(target.view_as(pred)).sum().item()` for one batch: how many
samples have their first-maximal logit index equal to the label. -/
def countCorrect (env : TorchLib P S) (p : P) (b : List S) : ℕ :=
  b.countP (fun s => decide (argmaxIdx (env.logits p s) = env.labelOf s))

/-- Observable actions of one epoch, in program order. -/
inductive Event
  | modeTrain | modeEval | zeroGrad | forwardPass | lossComp | backwardPass | optStep
  deriving DecidableEq, Repr

/-- The body of `train_epoch`'s `for` loop emits these events per batch:
`optimizer.zero_grad()`, `output = model(data)`,
`loss = F.cross_entropy(output, target)`, `loss.backward()`,
`optimizer.step()`. -/
def trainBatchEvents : List Event :=
  [Event.zeroGrad, Event.forwardPass, Event.lossComp, Event.backwardPass, Event.optStep]

/-- What one epoch leaves behind: the model (mutated in place in the
source), the accumulated statistics, the printed figures and the event
trace. -/
structure TrainRes (P : Type) where
  model : MModel P
  totalLoss : ℚ
  correct : ℕ
  printedLoss : ℚ
  printedTotal : ℕ
  trace : List Event

/-- The `for batch_idx, (data, target) in enumerate(train_loader)` loop of
`train_epoch`.  Per batch: zero_grad; forward; mean cross-entropy at the
current parameters; backward + step (one parameter update); the
correct-prediction count uses the forward output, hence the parameters
from before the step; `total_loss += loss.detach()`. -/
def trainLoop (env : TorchLib P S) :
    P → ℚ → ℕ → List Event → List (List S) → P × ℚ × ℕ × List Event
  | p, tl, c, tr, [] => (p, tl, c, tr)
  | p, tl, c, tr, b :: bs =>
    let loss := crossEntropyMean env p b
    let pNext := env.stepBatch p b
    trainLoop env pNext (tl + loss) (c + countCorrect env p b)
      (tr ++ trainBatchEvents) bs

/-- `train_epoch(model, train_loader, optimizer, epoch)`.  The loader is the
underlying `dataset` plus this epoch's shuffled order `shuffled` cut into
batches of `bs`; `num_samples = len(train_loader.dataset)`; the printed
loss is `total_loss / num_samples`. -/
def trainEpoch (env : TorchLib P S) (m : MModel P) (dataset shuffled : List S)
    (bs : ℕ) : TrainRes P :=
  let numSamples := dataset.length
  let out := trainLoop env m.params 0 0 [] (batchesOf bs shuffled)
  { model := { params := out.1, training := true }
    totalLoss := out.2.1
    correct := out.2.2.1
    printedLoss := out.2.1 / (numSamples : ℚ)
    printedTotal := numSamples
    trace := Event.modeTrain :: out.2.2.2 }

/-- What `eval_epoch` leaves behind. -/
structure EvalRes (P : Type) where
  model : MModel P
  avgLoss : ℚ
  correct : ℕ
  printedTotal : ℕ
  trace : List Event

/-- The `for data, target in test_loader` loop of `eval_epoch`: forward and
mean cross-entropy per batch, no gradient step, parameters untouched. -/
def evalLoop (env : TorchLib P S) (p : P) :
    ℚ → ℕ → List Event → List (List S) → ℚ × ℕ × List Event
  | tl, c, tr, [] => (tl, c, tr)
  | tl, c, tr, b :: bs =>
    evalLoop env p (tl + crossEntropyMean env p b) (c + countCorrect env p b)
      (tr ++ [Event.forwardPass, Event.lossComp]) bs

/-- `eval_epoch(model, test_loader, name)`: `model.eval()`, accumulate the
batch losses and correct counts, then `test_loss /= len(test_loader.dataset)`. -/
def evalEpoch (env : TorchLib P S) (m : MModel P) (dataset shuffled : List S)
    (bs : ℕ) : EvalRes P :=
  let out := evalLoop env m.params 0 0 [] (batchesOf bs shuffled)
  { model := { params := m.params, training := false }
    avgLoss := out.1 / (dataset.length : ℚ)
    correct := out.2.1
    printedTotal := dataset.length
    trace := Event.modeEval :: out.2.2 }

/-- The quantity the spec calls the aggregate (average) loss of a dataset:
the sum of the per-sample cross-entropy losses divided by the number of
samples.  Written from the spec's words, to compare with what
`trainEpoch` / `evalEpoch` actually print. -/
def specMeanLoss (env : TorchLib P S) (p : P) (dataset : List S) : ℚ :=
  (dataset.map (env.lossOfSample p)).sum / (dataset.length : ℚ)

/-! ## The training driver

```python
for epoch in range(1, epochs + 1):
    train_epoch(model, train_loader, optimizer, epoch)
    eval_epoch(model,  dev_loader, "Dev")
```
-/

/-- The whole mutable-in-principle state of the script: the model and the
three dataset partitions living in the process. -/
structure ScriptState (P S : Type) where
  model : MModel P
  train : List S
  dev : List S
  test : List S

/-- The top-level calls the driver makes, tagged with the epoch number. -/
inductive DriverEv
  | trainCall (epoch : ℕ) | evalCall (epoch : ℕ)
  deriving DecidableEq, Repr

/-- One iteration of the driver: `train_epoch` on the train loader, then
`eval_epoch` on the dev loader.  `shufT` / `shufD` are the fresh
permutations the two loaders draw this epoch. -/
def epochStep (env : TorchLib P S) (bs : ℕ) (shufT shufD : List S)
    (st : ScriptState P S) : ScriptState P S :=
  let r1 := trainEpoch env st.model st.train shufT bs
  let r2 := evalEpoch env r1.model st.dev shufD bs
  { st with model := r2.model }

/-- `for epoch in range(1, epochs + 1): ...`, also recording which calls
were made.  `shuf e` gives the two permutations drawn in epoch `e`. -/
def scriptGo (env : TorchLib P S) (bs : ℕ) (shuf : ℕ → List S × List S) :
    List ℕ → ScriptState P S → ScriptState P S × List DriverEv
  | [], st => (st, [])
  | e :: es, st =>
    let st1 := epochStep env bs (shuf e).1 (shuf e).2 st
    let rest := scriptGo env bs shuf es st1
    (rest.1, DriverEv.trainCall e :: DriverEv.evalCall e :: rest.2)

/-- The training driver: exactly the epochs `1, …, epochs` in order. -/
def runScript (env : TorchLib P S) (bs epochs : ℕ) (shuf : ℕ → List S × List S)
    (st : ScriptState P S) : ScriptState P S × List DriverEv :=
  scriptGo env bs shuf ((List.range epochs).map (· + 1)) st

/-! ## Fallible library calls

The bodies of `train_epoch` and `eval_epoch` re-embedded with each library
call allowed to fail (`Except`): `fwd` is `model(data)`, `lossB` is
`F.cross_entropy`, `bstep` is `loss.backward(); optimizer.step()`.  The
source wraps none of these in `try`/`except`, so each failure aborts the
loop by monadic propagation; these definitions mirror that. -/

def trainLoopE (fwd : P → List S → Except E O) (lossB : O → List S → Except E ℚ)
    (bstep : P → O → Except E P) : P → ℚ → List (List S) → Except E (P × ℚ)
  | p, tl, [] => Except.ok (p, tl)
  | p, tl, b :: bs =>
    match fwd p b with
    | Except.error e => Except.error e
    | Except.ok o =>
      match lossB o b with
      | Except.error e => Except.error e
      | Except.ok lv =>
        match bstep p o with
        | Except.error e => Except.error e
        | Except.ok pNext => trainLoopE fwd lossB bstep pNext (tl + lv) bs

def evalLoopE (fwd : P → List S → Except E O) (lossB : O → List S → Except E ℚ)
    (p : P) : ℚ → List (List S) → Except E ℚ
  | tl, [] => Except.ok tl
  | tl, b :: bs =>
    match fwd p b with
    | Except.error e => Except.error e
    | Except.ok o =>
      match lossB o b with
      | Except.error e => Except.error e
      | Except.ok lv => evalLoopE fwd lossB p (tl + lv) bs

/-! ## Tensor shapes and the linear `Model.forward`

```python
def forward(self, x):
    batch_size, num_channels, height, width = x.size()
    x = x.view(batch_size, -1)
    return self.fc(x)          # fc = nn.Linear(28*28, 10)
```

Only shapes matter for claim C10, so tensors are embedded by their shape
(`List ℕ`). -/

/-- The failures the library can raise on these shapes: an ambiguous or
non-dividing `-1` in `view`, a matmul size mismatch in `nn.Linear`, and a
tuple-unpacking arity error on `x.size()`. -/
inductive ShapeErr
  | viewAmbiguous | linearMismatch | unpackArity
  deriving DecidableEq, Repr

/-- `x.view(d0, -1)` on a tensor of `numel` elements: PyTorch infers the
`-1` dimension as `numel / d0`, requiring the known product `d0` to be
nonzero (otherwise the unspecified dimension could be any value and is
ambiguous) and to divide `numel`. -/
def viewInfer (d0 numel : ℕ) : Except ShapeErr (List ℕ) :=
  if d0 ≠ 0 ∧ numel % d0 = 0 then Except.ok [d0, numel / d0]
  else Except.error ShapeErr.viewAmbiguous

/-- `nn.Linear(inF, outF)` applied to a shape: the last dimension must be
`inF` and becomes `outF`. -/
def linearShape (inF outF : ℕ) (shape : List ℕ) : Except ShapeErr (List ℕ) :=
  match shape with
  | [] => Except.error ShapeErr.linearMismatch
  | _ =>
    if shape.getLast! = inF then Except.ok (shape.dropLast ++ [outF])
    else Except.error ShapeErr.linearMismatch

/-- Shape semantics of the linear classifier's `forward`: unpacking
`x.size()` into four names fails unless `x` is 4-dimensional; then
`x.view(batch_size, -1)` and `self.fc` with `fc = nn.Linear(28*28, 10)`. -/
def forwardShape (shape : List ℕ) : Except ShapeErr (List ℕ) :=
  match shape with
  | [b, c, h, w] =>
    match viewInfer b (b * c * h * w) with
    | Except.error e => Except.error e
    | Except.ok flat => linearShape (28 * 28) 10 flat
  | _ => Except.error ShapeErr.unpackArity

/-! ## Loop unrollings -/

theorem trainLoop_params (env : TorchLib P S) :
    ∀ (batches : List (List S)) (p : P) (tl : ℚ) (c : ℕ) (tr : List Event),
      (trainLoop env p tl c tr batches).1 = batches.foldl env.stepBatch p := by
  intro batches
  induction batches with
  | nil => intro p tl c tr; rfl
  | cons b bs ih => intro p tl c tr; simp only [trainLoop, List.foldl_cons]; exact ih _ _ _ _

theorem trainLoop_trace (env : TorchLib P S) :
    ∀ (batches : List (List S)) (p : P) (tl : ℚ) (c : ℕ) (tr : List Event),
      (trainLoop env p tl c tr batches).2.2.2
        = tr ++ ((batches.map fun _ => trainBatchEvents).flatten) := by
  intro batches
  induction batches with
  | nil => intro p tl c tr; simp [trainLoop]
  | cons b bs ih =>
    intro p tl c tr
    simp only [trainLoop, List.map_cons, List.flatten_cons]
    rw [ih]
    simp [List.append_assoc]

theorem evalLoop_correct (env : TorchLib P S) (p : P) :
    ∀ (batches : List (List S)) (tl : ℚ) (c : ℕ) (tr : List Event),
      (evalLoop env p tl c tr batches).2.1
        = c + (batches.flatten).countP
            (fun s => decide (argmaxIdx (env.logits p s) = env.labelOf s)) := by
  intro batches
  induction batches with
  | nil => intro tl c tr; simp [evalLoop]
  | cons b bs ih =>
    intro tl c tr
    simp only [evalLoop, List.flatten_cons, List.countP_append]
    rw [ih]
    simp only [countCorrect]
    omega

theorem evalLoop_trace (env : TorchLib P S) (p : P) :
    ∀ (batches : List (List S)) (tl : ℚ) (c : ℕ) (tr : List Event),
      (evalLoop env p tl c tr batches).2.2
        = tr ++ ((batches.map fun _ => [Event.forwardPass, Event.lossComp]).flatten) := by
  intro batches
  induction batches with
  | nil => intro tl c tr; simp [evalLoop]
  | cons b bs ih =>
    intro tl c tr
    simp only [evalLoop, List.map_cons, List.flatten_cons]
    rw [ih]
    simp [List.append_assoc]

theorem flatten_map_const_length (c : List Event) :
    ∀ (batches : List β),
      ((batches.map fun _ => c).flatten).length = c.length * batches.length := by
  intro batches
  induction batches with
  | nil => simp
  | cons b bs ih => simp [ih]; ring

theorem mem_flatten_map_const (c : List Event) :
    ∀ (batches : List β) (x : Event),
      x ∈ ((batches.map fun _ => c).flatten) → x ∈ c := by
  intro batches
  induction batches with
  | nil => intro x hx; simp at hx
  | cons b bs ih =>
    intro x hx
    simp only [List.map_cons, List.flatten_cons, List.mem_append] at hx
    rcases hx with h | h
    · exact h
    · exact ih x h

theorem trainLoopE_raises (fwd : P → List S → Except E O)
    (lossB : O → List S → Except E ℚ) (bstep : P → O → Except E P) :
    ∀ (batches : List (List S)) (p : P) (tl : ℚ),
      (∃ r, trainLoopE fwd lossB bstep p tl batches = Except.ok r)
      ∨ (∃ e, trainLoopE fwd lossB bstep p tl batches = Except.error e
          ∧ ∃ b, b ∈ batches
            ∧ ((∃ pw, fwd pw b = Except.error e)
               ∨ (∃ o, lossB o b = Except.error e)
               ∨ (∃ pw o, bstep pw o = Except.error e))) := by
  intro batches
  induction batches with
  | nil => intro p tl; exact Or.inl ⟨_, rfl⟩
  | cons b bs ih =>
    intro p tl
    rcases hf : fwd p b with e | o
    · exact Or.inr ⟨e, by simp [trainLoopE, hf], b, List.mem_cons_self b bs,
        Or.inl ⟨p, hf⟩⟩
    · rcases hl : lossB o b with e | lv
      · exact Or.inr ⟨e, by simp [trainLoopE, hf, hl], b, List.mem_cons_self b bs,
          Or.inr (Or.inl ⟨o, hl⟩)⟩
      · rcases hs : bstep p o with e | pNext
        · exact Or.inr ⟨e, by simp [trainLoopE, hf, hl, hs], b,
            List.mem_cons_self b bs, Or.inr (Or.inr ⟨p, o, hs⟩)⟩
        · have hstep : trainLoopE fwd lossB bstep p tl (b :: bs)
              = trainLoopE fwd lossB bstep pNext (tl + lv) bs := by
            simp [trainLoopE, hf, hl, hs]
          rcases ih pNext (tl + lv) with ⟨r, hr⟩ | ⟨e, he, bw, hbw, hcase⟩
          · exact Or.inl ⟨r, hstep.trans hr⟩
          · exact Or.inr ⟨e, hstep.trans he, bw, List.mem_cons_of_mem b hbw, hcase⟩

theorem evalLoopE_raises (fwd : P → List S → Except E O)
    (lossB : O → List S → Except E ℚ) (p : P) :
    ∀ (batches : List (List S)) (tl : ℚ),
      (∃ r, evalLoopE fwd lossB p tl batches = Except.ok r)
      ∨ (∃ e, evalLoopE fwd lossB p tl batches = Except.error e
          ∧ ∃ b, b ∈ batches
            ∧ (fwd p b = Except.error e ∨ (∃ o, lossB o b = Except.error e))) := by
  intro batches
  induction batches with
  | nil => intro tl; exact Or.inl ⟨_, rfl⟩
  | cons b bs ih =>
    intro tl
    rcases hf : fwd p b with e | o
    · exact Or.inr ⟨e, by simp [evalLoopE, hf], b, List.mem_cons_self b bs, Or.inl hf⟩
    · rcases hl : lossB o b with e | lv
      · exact Or.inr ⟨e, by simp [evalLoopE, hf, hl], b, List.mem_cons_self b bs,
          Or.inr ⟨o, hl⟩⟩
      · have hstep : evalLoopE fwd lossB p tl (b :: bs)
            = evalLoopE fwd lossB p (tl + lv) bs := by
          simp [evalLoopE, hf, hl]
        rcases ih (tl + lv) with ⟨r, hr⟩ | ⟨e, he, bw, hbw, hcase⟩
        · exact Or.inl ⟨r, hstep.trans hr⟩
        · exact Or.inr ⟨e, hstep.trans he, bw, List.mem_cons_of_mem b hbw, hcase⟩

theorem scriptGo_fields (env : TorchLib P S) (bs : ℕ) (shuf : ℕ → List S × List S) :
    ∀ (es : List ℕ) (st : ScriptState P S),
      ((scriptGo env bs shuf es st).1.train = st.train
        ∧ (scriptGo env bs shuf es st).1.dev = st.dev
        ∧ (scriptGo env bs shuf es st).1.test = st.test) := by
  intro es
  induction es with
  | nil => intro st; exact ⟨rfl, rfl, rfl⟩
  | cons e es ih =>
    intro st
    simp only [scriptGo]
    exact ih _

theorem scriptGo_trace (env : TorchLib P S) (bs : ℕ) (shuf : ℕ → List S × List S) :
    ∀ (es : List ℕ) (st : ScriptState P S),
      (scriptGo env bs shuf es st).2
        = (es.map fun e => [DriverEv.trainCall e, DriverEv.evalCall e]).flatten := by
  intro es
  induction es with
  | nil => intro st; rfl
  | cons e es ih =>
    intro st
    simp only [scriptGo, List.map_cons, List.flatten_cons]
    rw [ih]
    rfl

/-! ## A concrete library instance, used to evaluate the embedding

Parameters are trivial (`Unit`), samples are their own labels (`ℕ`), every
per-sample loss is `1`, the logit row is empty (so every prediction is
index `0`), and the optimizer step is the identity. -/

def envConst : TorchLib Unit ℕ where
  logits := fun _ _ => []
  lossOfSample := fun _ _ => 1
  stepBatch := fun p _ => p
  labelOf := fun s => s

/-! ## The claims -/

/-- C1: the script splits `all_train` into `train` = the first
`⌊0.8·n⌋` elements in order and `dev` = the remaining `n − ⌊0.8·n⌋`
elements in order; they concatenate back to `all_train` and come from
disjoint index ranges, and `test`, loaded from the separate `train=False`
dataset, shares no element with `train` or `dev` whenever it shares none
with `all_train`. -/
theorem split_partition (S : Type) (all test : List S) :
    trainSplit all ++ devSplit all = all
    ∧ (trainSplit all).length = num_train all.length
    ∧ (devSplit all).length = all.length - num_train all.length
    ∧ (∀ i : ℕ, i < num_train all.length → (trainSplit all)[i]? = all[i]?)
    ∧ (∀ j : ℕ, (devSplit all)[j]? = all[num_train all.length + j]?)
    ∧ (∀ x, x ∈ test → x ∉ all → x ∉ trainSplit all ∧ x ∉ devSplit all) := by
  refine ⟨List.take_append_drop _ _, ?_, ?_, ?_, ?_, ?_⟩
  · rw [trainSplit, List.length_take]
    exact min_eq_left (num_train_le _)
  · rw [devSplit, List.length_drop]
  · intro i hi
    exact List.getElem?_take_of_lt hi
  · intro j
    exact List.getElem?_drop _ _ _
  · intro x _ hnot
    exact ⟨fun hmem => hnot (List.take_subset _ _ hmem),
           fun hmem => hnot (List.drop_subset _ _ hmem)⟩

/-- Witness for C1 at `all_train = [0,1,2,3,4]`, `test = [9]`:
`num_train 5 = 4`, so `train = [0,1,2,3]` and `dev = [4]`. -/
theorem split_partition_witness :
    trainSplit [0, 1, 2, 3, 4] ++ devSplit [0, 1, 2, 3, 4] = [0, 1, 2, 3, 4]
    ∧ (trainSplit [0, 1, 2, 3, 4] : List ℕ)[0]? = some 0
    ∧ (devSplit [0, 1, 2, 3, 4] : List ℕ)[0]? = some 4
    ∧ ((9 : ℕ) ∉ trainSplit [0, 1, 2, 3, 4] ∧ (9 : ℕ) ∉ devSplit [0, 1, 2, 3, 4]) := by
  have h := split_partition ℕ [0, 1, 2, 3, 4] [9]
  exact ⟨h.1, (h.2.2.2.1 0 (by decide)).trans (by decide),
    (h.2.2.2.2.1 0).trans (by decide), h.2.2.2.2.2 9 (by decide) (by decide)⟩

/-- C2: one call to `train_epoch` is one full pass: the loader's batches
flatten to a permutation of the training dataset (every element exactly
once), the trace is `model.train()` followed by, per batch and in order,
zero_grad / forward / cross-entropy / backward / step, and the final
parameters are exactly one `stepBatch` fold over the batches (one
optimizer update per batch). -/
theorem trainEpoch_one_pass (P S : Type) (env : TorchLib P S) (m : MModel P)
    (dataset shuffled : List S) (bs : ℕ) (hbs : 0 < bs)
    (hperm : shuffled.Perm dataset) :
    (batchesOf bs shuffled).flatten.Perm dataset
    ∧ (trainEpoch env m dataset shuffled bs).trace
        = Event.modeTrain :: ((batchesOf bs shuffled).map fun _ => trainBatchEvents).flatten
    ∧ (trainEpoch env m dataset shuffled bs).model.params
        = (batchesOf bs shuffled).foldl env.stepBatch m.params := by
  refine ⟨?_, ?_, ?_⟩
  · rw [batchesOf_flatten bs hbs]
    exact hperm
  · simp only [trainEpoch]
    rw [trainLoop_trace]
    simp
  · simp only [trainEpoch]
    rw [trainLoop_params]

/-- Witness for C2 with the trivial library instance, dataset `[0,1,2]`
shuffled to `[2,0,1]`, batch size 2. -/
theorem trainEpoch_one_pass_witness :
    (batchesOf 2 [2, 0, 1]).flatten.Perm [0, 1, 2]
    ∧ (trainEpoch envConst ⟨(), true⟩ [0, 1, 2] [2, 0, 1] 2).trace
        = Event.modeTrain :: ((batchesOf 2 [2, 0, 1]).map fun _ => trainBatchEvents).flatten
    ∧ (trainEpoch envConst ⟨(), true⟩ [0, 1, 2] [2, 0, 1] 2).model.params
        = (batchesOf 2 [2, 0, 1]).foldl envConst.stepBatch () :=
  trainEpoch_one_pass Unit ℕ envConst ⟨(), true⟩ [0, 1, 2] [2, 0, 1] 2
    (by decide) (by decide)

/-- C3 fails on the code: with every per-sample loss equal to `1` and the
two-sample dataset `[0,1]` loaded as a single batch of size 2, both
`train_epoch` and `eval_epoch` print `1/2` — the sum of the batch-MEAN
losses divided by the sample count — while the sum of the per-sample
losses divided by the sample count is `1`.  (`F.cross_entropy` defaults to
`reduction='mean'`, yet the accumulated value is divided by
`len(loader.dataset)` as if batch sums had been accumulated, as the
comment `# sum up batch loss` and the label `Average loss` intend.) -/
theorem printedLoss_not_average :
    (trainEpoch envConst ⟨(), true⟩ [0, 1] [0, 1] 2).printedLoss = 1 / 2
    ∧ (evalEpoch envConst ⟨(), true⟩ [0, 1] [0, 1] 2).avgLoss = 1 / 2
    ∧ specMeanLoss envConst () [0, 1] = 1
    ∧ (1 / 2 : ℚ) ≠ 1 := by
  refine ⟨?_, ?_, ?_, by norm_num⟩ <;>
    norm_num [trainEpoch, evalEpoch, trainLoop, evalLoop, batchesOf, chunksGo,
      crossEntropyMean, countCorrect, envConst, specMeanLoss]

/-- C4: across any number of epochs the driver leaves the train, dev and
test partitions untouched; the resulting process state differs from the
initial one only in the model. -/
theorem datasets_read_only (P S : Type) (env : TorchLib P S) (bs epochs : ℕ)
    (shuf : ℕ → List S × List S) (st : ScriptState P S) :
    (runScript env bs epochs shuf st).1.train = st.train
    ∧ (runScript env bs epochs shuf st).1.dev = st.dev
    ∧ (runScript env bs epochs shuf st).1.test = st.test
    ∧ (runScript env bs epochs shuf st).1
        = { st with model := (runScript env bs epochs shuf st).1.model } := by
  obtain ⟨h1, h2, h3⟩ :=
    scriptGo_fields env bs shuf ((List.range epochs).map (· + 1)) st
  refine ⟨h1, h2, h3, ?_⟩
  have he : (scriptGo env bs shuf ((List.range epochs).map (· + 1)) st).1
      = ⟨(scriptGo env bs shuf ((List.range epochs).map (· + 1)) st).1.model,
         (scriptGo env bs shuf ((List.range epochs).map (· + 1)) st).1.train,
         (scriptGo env bs shuf ((List.range epochs).map (· + 1)) st).1.dev,
         (scriptGo env bs shuf ((List.range epochs).map (· + 1)) st).1.test⟩ := rfl
  rw [h1, h2, h3] at he
  exact he

/-- C5: the epoch loops install no handler: every run of the fallible
re-embeddings of `train_epoch` and `eval_epoch` either succeeds or returns
verbatim an error raised by one of the library calls (`model(data)`,
`F.cross_entropy`, `backward`/`step`) on one of its batches — no retry, no
recovery, no rewrapping. -/
theorem no_error_recovery (P S O E : Type) (fwd : P → List S → Except E O)
    (lossB : O → List S → Except E ℚ) (bstep : P → O → Except E P) (p : P) :
    (∀ (batches : List (List S)) (q : P) (tl : ℚ),
      (∃ r, trainLoopE fwd lossB bstep q tl batches = Except.ok r)
      ∨ (∃ e, trainLoopE fwd lossB bstep q tl batches = Except.error e
          ∧ ∃ b, b ∈ batches
            ∧ ((∃ pw, fwd pw b = Except.error e)
               ∨ (∃ o, lossB o b = Except.error e)
               ∨ (∃ pw o, bstep pw o = Except.error e))))
    ∧ (∀ (batches : List (List S)) (tl : ℚ),
      (∃ r, evalLoopE fwd lossB p tl batches = Except.ok r)
      ∨ (∃ e, evalLoopE fwd lossB p tl batches = Except.error e
          ∧ ∃ b, b ∈ batches
            ∧ (fwd p b = Except.error e ∨ (∃ o, lossB o b = Except.error e)))) :=
  ⟨fun batches q tl => trainLoopE_raises fwd lossB bstep batches q tl,
   fun batches tl => evalLoopE_raises fwd lossB p batches tl⟩

/-- C6: the driver performs exactly `epochs` iterations — its trace is the
epochs `1, …, epochs` in order, each one `train_epoch` call followed by one
`eval_epoch` call, `2·epochs` calls in total (20 for the tutorial's
`epochs = 10`) — and both epoch functions run finitely many batch
iterations: their traces are finite, of length determined by the number of
batches, which is at most the dataset length. -/
theorem driver_structure (P S : Type) (env : TorchLib P S) (bs epochs : ℕ)
    (shuf : ℕ → List S × List S) (st : ScriptState P S) (l : List S) :
    (runScript env bs epochs shuf st).2
      = (((List.range epochs).map (· + 1)).map
          fun e => [DriverEv.trainCall e, DriverEv.evalCall e]).flatten
    ∧ (runScript env bs epochs shuf st).2.length = 2 * epochs
    ∧ (runScript env bs 10 shuf st).2.length = 20
    ∧ (trainEpoch env st.model st.train l bs).trace.length
        = 1 + 5 * (batchesOf bs l).length
    ∧ (evalEpoch env st.model st.dev l bs).trace.length
        = 1 + 2 * (batchesOf bs l).length
    ∧ (batchesOf bs l).length ≤ l.length := by
  have htr : ∀ n, (runScript env bs n shuf st).2.length = 2 * n := by
    intro n
    show (scriptGo env bs shuf ((List.range n).map (· + 1)) st).2.length = 2 * n
    rw [scriptGo_trace]
    have : ∀ (es : List ℕ),
        ((es.map fun e => [DriverEv.trainCall e, DriverEv.evalCall e]).flatten).length
          = 2 * es.length := by
      intro es
      induction es with
      | nil => simp
      | cons e es ih => simp [ih]; ring
    rw [this]
    simp
  refine ⟨scriptGo_trace env bs shuf _ st, htr epochs, htr 10, ?_, ?_,
    batchesOf_length_le bs l⟩
  · simp only [trainEpoch]
    rw [trainLoop_trace]
    simp [flatten_map_const_length, trainBatchEvents]
    ring
  · simp only [evalEpoch]
    rw [evalLoop_trace]
    simp [flatten_map_const_length]
    ring

/-- C7 fails as stated: with the tutorial's `batch_size = 64` and a
training dataset of one element, the single batch `train_epoch` processes
has 1 element, not 64 (the `DataLoader` keeps a short final batch,
`drop_last=False`). -/
theorem batch_size_counterexample :
    batchesOf 64 [(0 : ℕ)] = [[0]] ∧ ([(0 : ℕ)] : List ℕ).length ≠ 64 :=
  ⟨rfl, by decide⟩

/-- C7 amended: every mini-batch is nonempty and has at most `batch_size`
elements; every batch except possibly the last has exactly `batch_size`
elements; and whenever `batch_size` divides the dataset length — as in the
tutorial, where 64 divides the 48000 train samples — every batch has
exactly `batch_size` elements. -/
theorem batch_sizes_amended (S : Type) (bs : ℕ) (l : List S) (hbs : 0 < bs) :
    (∀ b ∈ batchesOf bs l, 0 < b.length ∧ b.length ≤ bs)
    ∧ (∀ b ∈ (batchesOf bs l).dropLast, b.length = bs)
    ∧ (bs ∣ l.length → ∀ b ∈ batchesOf bs l, b.length = bs) :=
  ⟨chunksGo_mem_length bs hbs l.length l,
   batchesOf_dropLast_length bs hbs l,
   fun hdvd => batchesOf_dvd_length bs hbs l hdvd⟩

/-- Witness for the amended C7 at `batch_size = 2` over `[0,1,2,3]`:
the first batch `[0,1]` is nonempty and no longer than 2, and since
`2 ∣ 4` the batch `[2,3]` has exactly 2 elements. -/
theorem batch_sizes_amended_witness :
    ((0 : ℕ) < ([0, 1] : List ℕ).length ∧ ([0, 1] : List ℕ).length ≤ 2)
    ∧ ([2, 3] : List ℕ).length = 2 :=
  ⟨(batch_sizes_amended ℕ 2 [0, 1, 2, 3] (by decide)).1 [0, 1] (by decide),
   (batch_sizes_amended ℕ 2 [0, 1, 2, 3] (by decide)).2.2 (by decide) [2, 3] (by decide)⟩

/-- C8: `eval_epoch` leaves the parameters exactly as they were, switches
the module to eval mode, and its trace contains no backward pass, no
optimizer step and no gradient reset. -/
theorem evalEpoch_frame (P S : Type) (env : TorchLib P S) (m : MModel P)
    (dataset shuffled : List S) (bs : ℕ) :
    (evalEpoch env m dataset shuffled bs).model.params = m.params
    ∧ (evalEpoch env m dataset shuffled bs).model.training = false
    ∧ Event.backwardPass ∉ (evalEpoch env m dataset shuffled bs).trace
    ∧ Event.optStep ∉ (evalEpoch env m dataset shuffled bs).trace
    ∧ Event.zeroGrad ∉ (evalEpoch env m dataset shuffled bs).trace := by
  have htrace : (evalEpoch env m dataset shuffled bs).trace
      = Event.modeEval ::
        ((batchesOf bs shuffled).map fun _ => [Event.forwardPass, Event.lossComp]).flatten := by
    simp only [evalEpoch]
    rw [evalLoop_trace]
    simp
  refine ⟨rfl, rfl, ?_, ?_, ?_⟩ <;>
    · rw [htrace]
      intro hmem
      rcases List.mem_cons.mp hmem with h | h
      · exact absurd h (by decide)
      · have := mem_flatten_map_const _ _ _ h
        simp at this

/-- C9: the correct-prediction count of `eval_epoch` equals the number of
dataset samples whose first-maximal logit index equals their label,
whatever permutation the shuffling loader drew and however it was cut into
batches. -/
theorem evalEpoch_correct_count (P S : Type) (env : TorchLib P S) (m : MModel P)
    (dataset shuffled : List S) (bs : ℕ) (hbs : 0 < bs)
    (hperm : shuffled.Perm dataset) :
    (evalEpoch env m dataset shuffled bs).correct
      = dataset.countP
          (fun s => decide (argmaxIdx (env.logits m.params s) = env.labelOf s)) := by
  simp only [evalEpoch]
  rw [evalLoop_correct, batchesOf_flatten bs hbs]
  rw [hperm.countP_eq]
  simp

/-- Witness for C9: the trivial library instance predicts class 0 for every
sample; over the dataset `[0,1]` shuffled to `[1,0]` with batch size 1,
exactly the sample labelled 0 is counted. -/
theorem evalEpoch_correct_count_witness :
    (evalEpoch envConst ⟨(), true⟩ [0, 1] [1, 0] 1).correct
      = ([0, 1] : List ℕ).countP
          (fun s => decide (argmaxIdx (envConst.logits () s) = envConst.labelOf s)) :=
  evalEpoch_correct_count Unit ℕ envConst ⟨(), true⟩ [0, 1] [1, 0] 1
    (by decide) (by decide)

/-- C10 fails as stated: the 4-dimensional shape `(0, 1, 28, 28)` has
`num_channels·height·width = 28·28`, yet `forward` fails — `x.view(0, -1)`
cannot infer the `-1` dimension of a tensor with 0 elements. -/
theorem forwardShape_counterexample :
    1 * 28 * 28 = 28 * 28
    ∧ forwardShape [0, 1, 28, 28] = Except.error ShapeErr.viewAmbiguous :=
  ⟨by decide, rfl⟩

/-- C10 amended: for every 4-dimensional shape with a POSITIVE batch
dimension, `forward` succeeds and returns shape `(batch_size, 10)` exactly
when the flattened per-sample size is `28·28`, fails with a linear-layer
size mismatch when it is not, and fails on any shape that is not
4-dimensional; a zero batch dimension also fails, at the `view`. -/
theorem forwardShape_amended (b c h w : ℕ) (shape : List ℕ) :
    (0 < b → c * h * w = 28 * 28 → forwardShape [b, c, h, w] = Except.ok [b, 10])
    ∧ (0 < b → c * h * w ≠ 28 * 28
        → forwardShape [b, c, h, w] = Except.error ShapeErr.linearMismatch)
    ∧ (shape.length ≠ 4
        → forwardShape shape = Except.error ShapeErr.unpackArity)
    ∧ (c * h * w = 28 * 28
        → forwardShape [0, c, h, w] = Except.error ShapeErr.viewAmbiguous) := by
  have hlast : ∀ x : ℕ, ([b, x] : List ℕ).getLast! = x := fun x => rfl
  have hred : 0 < b →
      forwardShape [b, c, h, w] = linearShape (28 * 28) 10 [b, c * h * w] := by
    intro hb
    have hview : viewInfer b (b * c * h * w) = Except.ok [b, c * h * w] := by
      have hmul : b * c * h * w = b * (c * h * w) := by ring
      simp only [viewInfer]
      rw [if_pos]
      · rw [hmul, Nat.mul_div_cancel_left _ hb]
      · constructor
        · omega
        · rw [hmul]
          exact Nat.mul_mod_right b _
    simp only [forwardShape]
    rw [hview]
  refine ⟨?_, ?_, ?_, ?_⟩
  · intro hb hsz
    rw [hred hb, hsz]
    simp only [linearShape]
    rw [if_pos (hlast (28 * 28))]
    rfl
  · intro hb hsz
    rw [hred hb]
    simp only [linearShape]
    have hne : ¬([b, c * h * w] : List ℕ).getLast! = 28 * 28 := by
      rw [hlast]
      exact hsz
    rw [if_neg hne]
  · intro hlen
    rcases shape with _ | ⟨a0, _ | ⟨a1, _ | ⟨a2, _ | ⟨a3, _ | ⟨a4, tl⟩⟩⟩⟩⟩
    · rfl
    · rfl
    · rfl
    · rfl
    · exact absurd rfl hlen
    · rfl
  · intro _
    simp [forwardShape, viewInfer]

/-- Witness for the amended C10: shape `(2, 1, 28, 28)` succeeds giving
`(2, 10)`; `(1, 1, 1, 1)` fails at the linear layer; `(5)` fails at the
size unpacking; `(0, 1, 28, 28)` fails at the view. -/
theorem forwardShape_amended_witness :
    forwardShape [2, 1, 28, 28] = Except.ok [2, 10]
    ∧ forwardShape [1, 1, 1, 1] = Except.error ShapeErr.linearMismatch
    ∧ forwardShape [5] = Except.error ShapeErr.unpackArity
    ∧ forwardShape [0, 1, 28, 28] = Except.error ShapeErr.viewAmbiguous :=
  ⟨(forwardShape_amended 2 1 28 28 []).1 (by decide) (by decide),
   (forwardShape_amended 1 1 1 1 []).2.1 (by decide) (by decide),
   (forwardShape_amended 0 0 0 0 [5]).2.2.1 (by decide),
   (forwardShape_amended 0 1 28 28 []).2.2.2 (by decide)⟩

end MLCodeLab
